import Mathlib

set_option maxRecDepth 8000

/-
Shallow embedding of the ReadGuard GitHub action (src/main.py together with
the thin adapters src/github_client.py and src/llm_client.py).

Pure text and JSON manipulation from the source is translated directly into
executable Lean definitions.  External collaborators enter as explicit
inputs:
  * hashlib.sha256(...).hexdigest() (Python standard library) is abstracted
    as a function parameter `H : String → String`;
  * the LLM client response (llm_client.generate_question, which returns a
    parsed JSON value or None on any provider exception) is a function
    parameter `llm : String → Option JVal`;
  * the GitHub comment history and the event comment body are plain inputs,
    and the side effects (posted comments, created check runs, process exit)
    are collected in an explicit `RunResult` record.
-/

namespace ReadGuard

/- ---------------------------------------------------------------------
   Python `str.strip()` and the reply pattern of run_verify_mode
   (main.py:125-132): `re.match(r'/answer\s+([a-cA-C])', body.strip())`.
   `\s` is modelled by the ASCII whitespace characters Python's `\s`
   matches; `str.strip()` strips the same set.  (Python also strips some
   rarer Unicode whitespace; no behaviour relevant to the source depends
   on those.)
   --------------------------------------------------------------------- -/

def isPyWs (c : Char) : Bool :=
  c == ' ' || c == '\t' || c == '\n' || c == '\r' || c == '\x0b' || c == '\x0c'

def dropWs : List Char → List Char
  | [] => []
  | c :: cs => if isPyWs c then dropWs cs else c :: cs

def pyStrip (cs : List Char) : List Char :=
  (dropWs ((dropWs cs).reverse)).reverse

/-- The character class `[a-cA-C]` of the reply pattern. -/
def isAnswerLetter (c : Char) : Bool :=
  c == 'a' || c == 'b' || c == 'c' || c == 'A' || c == 'B' || c == 'C'

/-- Greedy `\s*` continuation of `\s+` followed by the letter class; no
backtracking is needed because the letter class and `\s` are disjoint. -/
def afterWs : List Char → Option Char
  | [] => none
  | c :: cs => if isPyWs c then afterWs cs else if isAnswerLetter c then some c else none

/-- `leadsWith p s` holds when `p` is an initial segment of `s`. -/
def leadsWith : List Char → List Char → Bool
  | [], _ => true
  | _ :: _, [] => false
  | p :: ps, c :: cs => p == c && leadsWith ps cs

/-- The `\s+([a-cA-C])` part after the command token: the head character
must be whitespace, then greedy whitespace and one letter of the class. -/
def matchTail : List Char → Option Char
  | [] => none
  | c :: rest => if isPyWs c then afterWs rest else none

/-- `re.match(r'/answer\s+([a-cA-C])', ·)`: anchored at the start, one or
more whitespace characters after the literal `/answer`, then one letter of
the class; trailing characters are unconstrained. -/
def reMatchAnswer (cs : List Char) : Option Char :=
  if leadsWith "/answer".data cs then matchTail (cs.drop 7) else none

def pyUpper (cs : List Char) : List Char := cs.map Char.toUpper

/-- main.py:125-132: strip the comment body, match the reply pattern, and
uppercase the captured letter. -/
def parse_answer (body : String) : Option String :=
  (reMatchAnswer (pyStrip body.data)).map (fun c => String.mk [c.toUpper])

/- ---------------------------------------------------------------------
   compute_hash (main.py:23-27):
     answer = answer.strip().upper()
     data = f"{answer}:{salt}"
     return hashlib.sha256(data.encode()).hexdigest()
   The sha256 hexdigest (Python standard library, external to this
   repository) is abstracted as the parameter `H`.
   --------------------------------------------------------------------- -/

/-- The pre-hash string `f"{answer.strip().upper()}:{salt}"`. -/
def hashInput (answer salt : String) : String :=
  String.mk (pyUpper (pyStrip answer.data) ++ ':' :: salt.data)

def compute_hash (H : String → String) (answer salt : String) : String :=
  H (hashInput answer salt)

/-- The spec's `verify(claimed, salt, hash)`: recompute the commitment of
the claimed label under the stored salt and compare with the stored hash.
This is the comparison performed at main.py:154-162. -/
def verify (H : String → String) (claimed salt hash : String) : Bool :=
  compute_hash H claimed salt == hash

/- ---------------------------------------------------------------------
   JSON values, as produced by json.loads / consumed by json.dumps.
   Numbers carry their source literal (their numeric value is never used
   by the program except for Python truthiness).
   --------------------------------------------------------------------- -/

mutual
inductive JVal where
  | jnull : JVal
  | jbool : Bool → JVal
  | jnum : String → JVal
  | jstr : String → JVal
  | jarr : JList → JVal
  | jobj : JFields → JVal

inductive JList where
  | nil : JList
  | cons : JVal → JList → JList

inductive JFields where
  | fnil : JFields
  | fcons : String → JVal → JFields → JFields
end

/-- Python dict lookup `d.get(k)` / `d[k]` on a decoded JSON object. -/
def fieldsLookup : JFields → String → Option JVal
  | .fnil, _ => none
  | .fcons k0 v0 rest, k => if k0 == k then some v0 else fieldsLookup rest k

/-- Insertion with Python dict semantics: a repeated key keeps its first
position but takes the latest value. -/
def insertField : JFields → String → JVal → JFields
  | .fnil, k, v => .fcons k v .fnil
  | .fcons k0 v0 rest, k, v =>
    if k0 == k then .fcons k0 v rest else .fcons k0 v0 (insertField rest k v)

/-- Python truthiness of a nonzero number literal: any literal with a
nonzero digit, or one of the non-finite constants.  (Exact float underflow
of extreme exponents is not modelled; the program never evaluates number
truthiness.) -/
def numTruthy (lit : String) : Bool :=
  lit.data.any (fun c => '1' ≤ c && c ≤ '9') || lit == "NaN" || lit == "Infinity" || lit == "-Infinity"

/-- Python truthiness (`if meta ...`, `if not q_data ...`) of a value
returned by json.loads. -/
def truthy : JVal → Bool
  | .jnull => false
  | .jbool b => b
  | .jnum lit => numTruthy lit
  | .jstr s => !(s == "")
  | .jarr .nil => false
  | .jarr (.cons _ _) => true
  | .jobj .fnil => false
  | .jobj (.fcons _ _ _) => true

/- Python str()/repr() of decoded JSON values, used by the f-strings of
main.py when interpolating values taken from decoded metadata.  For
containers Python uses repr of the elements; float formatting of number
literals is not modelled (the program only ever interpolates strings). -/

mutual
def pyRepr : JVal → String
  | .jnull => "None"
  | .jbool true => "True"
  | .jbool false => "False"
  | .jnum lit => lit
  | .jstr s => "'" ++ s ++ "'"
  | .jarr xs => "[" ++ pyReprList xs ++ "]"
  | .jobj fs => "\x7b" ++ pyReprFields fs ++ "\x7d"

def pyReprList : JList → String
  | .nil => ""
  | .cons v .nil => pyRepr v
  | .cons v rest => pyRepr v ++ ", " ++ pyReprList rest

def pyReprFields : JFields → String
  | .fnil => ""
  | .fcons k v .fnil => "'" ++ k ++ "': " ++ pyRepr v
  | .fcons k v rest => "'" ++ k ++ "': " ++ pyRepr v ++ ", " ++ pyReprFields rest
end

def pyStr : JVal → String
  | .jstr s => s
  | v => pyRepr v

/- ---------------------------------------------------------------------
   json.dumps with the default settings used by create_hidden_metadata
   (separators ", " and ": ", ensure_ascii=True).  Strings are escaped as
   the standard encoder does: quote, backslash and the five short escapes
   specially, every other character outside the printable ASCII range
   0x20..0x7e as \uXXXX (with a surrogate pair above 0xffff).
   --------------------------------------------------------------------- -/

def hexDigit (n : Nat) : Char :=
  if n < 10 then Char.ofNat (48 + n) else Char.ofNat (87 + n)

def uEscape4 (n : Nat) : List Char :=
  ['\\', 'u', hexDigit (n / 4096 % 16), hexDigit (n / 256 % 16),
   hexDigit (n / 16 % 16), hexDigit (n % 16)]

def uEscape (n : Nat) : List Char :=
  if n ≤ 0xffff then uEscape4 n
  else uEscape4 (0xd800 + (n - 0x10000) / 0x400) ++ uEscape4 (0xdc00 + (n - 0x10000) % 0x400)

def escapeChar (c : Char) : List Char :=
  if c = '"' then ['\\', '"']
  else if c = '\\' then ['\\', '\\']
  else if c = '\n' then ['\\', 'n']
  else if c = '\t' then ['\\', 't']
  else if c = '\r' then ['\\', 'r']
  else if c = '\x08' then ['\\', 'b']
  else if c = '\x0c' then ['\\', 'f']
  else if 0x20 ≤ c.toNat ∧ c.toNat ≤ 0x7e then [c]
  else uEscape c.toNat

def escChars : List Char → List Char
  | [] => []
  | c :: cs => escapeChar c ++ escChars cs

def dumpStringChars (s : String) : List Char :=
  '"' :: escChars s.data ++ ['"']

mutual
def dumpVal : JVal → List Char
  | .jnull => "null".data
  | .jbool true => "true".data
  | .jbool false => "false".data
  | .jnum lit => lit.data
  | .jstr s => dumpStringChars s
  | .jarr xs => '[' :: dumpList xs ++ [']']
  | .jobj fs => '\x7b' :: dumpFields fs ++ ['\x7d']

def dumpList : JList → List Char
  | .nil => []
  | .cons v .nil => dumpVal v
  | .cons v rest => dumpVal v ++ ',' :: ' ' :: dumpList rest

def dumpFields : JFields → List Char
  | .fnil => []
  | .fcons k v .fnil => dumpStringChars k ++ ':' :: ' ' :: dumpVal v
  | .fcons k v rest => dumpStringChars k ++ ':' :: ' ' :: dumpVal v ++ ',' :: ' ' :: dumpFields rest
end

def json_dumps (v : JVal) : String := String.mk (dumpVal v)

/- ---------------------------------------------------------------------
   json.loads.  A fuel-indexed recursive-descent parser following the
   behaviour of Python's decoder: JSON whitespace is ' ', '\t', '\n',
   '\r'; strings reject raw control characters and understand the
   standard escapes and \uXXXX (a valid surrogate pair is combined; a
   surrogate that Lean's Char cannot represent degrades to Char.ofNat's
   default, a case the program never produces); numbers follow the
   NUMBER_RE grammar and are kept as literals; the constants NaN,
   Infinity and -Infinity are accepted; objects collapse duplicate keys
   with dict semantics.  The fuel (length of the input plus one) bounds
   the nesting depth and is never exhausted because every decrement
   follows at least one consumed character.
   --------------------------------------------------------------------- -/

def jsonWs (c : Char) : Bool :=
  c == ' ' || c == '\t' || c == '\n' || c == '\r'

def skipWs : List Char → List Char
  | [] => []
  | c :: cs => if jsonWs c then skipWs cs else c :: cs

def hexVal (c : Char) : Option Nat :=
  if '0' ≤ c ∧ c ≤ '9' then some (c.toNat - 48)
  else if 'a' ≤ c ∧ c ≤ 'f' then some (c.toNat - 87)
  else if 'A' ≤ c ∧ c ≤ 'F' then some (c.toNat - 55)
  else none

def hex4 (a b c d : Char) : Option Nat :=
  match hexVal a, hexVal b, hexVal c, hexVal d with
  | some x, some y, some z, some w => some (x * 4096 + y * 256 + z * 16 + w)
  | _, _, _, _ => none

def escMap (c : Char) : Option Char :=
  if c = '"' then some '"'
  else if c = '\\' then some '\\'
  else if c = '/' then some '/'
  else if c = 'b' then some '\x08'
  else if c = 'f' then some '\x0c'
  else if c = 'n' then some '\n'
  else if c = 'r' then some '\r'
  else if c = 't' then some '\t'
  else none

/-- First phase of py_scanstring: lex the body of a string literal up to
the closing quote into UTF-16 code units, handling the short escapes and
\uXXXX, rejecting raw control characters (strict mode) and unterminated
or unknown escapes. -/
def strLex : List Char → Option (List Nat × List Char)
  | [] => none
  | c :: cs =>
    if c = '"' then some ([], cs)
    else if c = '\\' then
      match cs with
      | [] => none
      | e :: cs2 =>
        if e = 'u' then
          match cs2 with
          | h1 :: h2 :: h3 :: h4 :: cs3 =>
            match hex4 h1 h2 h3 h4 with
            | some n => (strLex cs3).map (fun p => (n :: p.1, p.2))
            | none => none
          | _ => none
        else
          match escMap e with
          | some r => (strLex cs2).map (fun p => (r.toNat :: p.1, p.2))
          | none => none
    else if c.toNat < 0x20 then none
    else (strLex cs).map (fun p => (c.toNat :: p.1, p.2))

/-- Second phase of py_scanstring: an adjacent high/low surrogate pair of
code units (which can only arise from two adjacent \uXXXX escapes, since
characters of the input are scalar values) is combined into one code
point; a lone surrogate is kept as is (Python keeps it in the str; Lean's
`Char.ofNat` degrades it to the default character, a case the program
never produces). -/
def combineSurrogates : List Nat → List Nat
  | [] => []
  | [n] => [n]
  | n :: m :: rest =>
    if 0xd800 ≤ n ∧ n ≤ 0xdbff ∧ 0xdc00 ≤ m ∧ m ≤ 0xdfff then
      (0x10000 + (n - 0xd800) * 0x400 + (m - 0xdc00)) :: combineSurrogates rest
    else n :: combineSurrogates (m :: rest)

def parseStringBody (cs : List Char) : Option (List Char × List Char) :=
  (strLex cs).map (fun p => ((combineSurrogates p.1).map Char.ofNat, p.2))

def spanDigits : List Char → List Char × List Char
  | [] => ([], [])
  | c :: cs =>
    if c.isDigit then
      let p := spanDigits cs
      (c :: p.1, p.2)
    else ([], c :: cs)

def parseIntPart : List Char → Option (List Char × List Char)
  | [] => none
  | c :: cs =>
    if c = '0' then some (['0'], cs)
    else if '1' ≤ c ∧ c ≤ '9' then
      let p := spanDigits cs
      some (c :: p.1, p.2)
    else none

/-- Optional fraction group of NUMBER_RE; a dot not followed by a digit is
left unconsumed, as the regex group simply fails to match. -/
def parseFracPart : List Char → List Char × List Char
  | [] => ([], [])
  | c :: cs =>
    if c = '.' then
      match spanDigits cs with
      | ([], _) => ([], c :: cs)
      | (ds, r) => (c :: ds, r)
    else ([], c :: cs)

/-- Optional exponent group of NUMBER_RE, likewise non-consuming when it
fails to match. -/
def parseExpPart : List Char → List Char × List Char
  | [] => ([], [])
  | c :: cs =>
    if c = 'e' ∨ c = 'E' then
      match cs with
      | s :: cs2 =>
        if s = '+' ∨ s = '-' then
          match spanDigits cs2 with
          | ([], _) => ([], c :: cs)
          | (ds, r) => (c :: s :: ds, r)
        else
          match spanDigits cs with
          | ([], _) => ([], c :: cs)
          | (ds, r) => (c :: ds, r)
      | [] => ([], [c])
    else ([], c :: cs)

def parseNumber (cs : List Char) : Option (List Char × List Char) :=
  match cs with
  | c :: rest =>
    if c = '-' then
      (parseIntPart rest).map (fun p =>
        let f := parseFracPart p.2
        let e := parseExpPart f.2
        ('-' :: p.1 ++ f.1 ++ e.1, e.2))
    else
      (parseIntPart cs).map (fun p =>
        let f := parseFracPart p.2
        let e := parseExpPart f.2
        (p.1 ++ f.1 ++ e.1, e.2))
  | [] => none

mutual
def parseValue : Nat → List Char → Option (JVal × List Char)
  | 0, _ => none
  | f + 1, cs =>
    match cs with
    | [] => none
    | c :: rest =>
      if c = '"' then
        (parseStringBody rest).map (fun p => (.jstr (String.mk p.1), p.2))
      else if c = '\x7b' then
        match skipWs rest with
        | c2 :: r2 =>
          if c2 = '\x7d' then some (.jobj .fnil, r2)
          else parseMembers f .fnil (c2 :: r2)
        | [] => none
      else if c = '[' then
        match skipWs rest with
        | c2 :: r2 =>
          if c2 = ']' then some (.jarr .nil, r2)
          else (parseElems f (c2 :: r2)).map (fun p => (.jarr p.1, p.2))
        | [] => none
      else if leadsWith "true".data cs then some (.jbool true, cs.drop 4)
      else if leadsWith "false".data cs then some (.jbool false, cs.drop 5)
      else if leadsWith "null".data cs then some (.jnull, cs.drop 4)
      else if leadsWith "NaN".data cs then some (.jnum "NaN", cs.drop 3)
      else if leadsWith "Infinity".data cs then some (.jnum "Infinity", cs.drop 8)
      else if leadsWith "-Infinity".data cs then some (.jnum "-Infinity", cs.drop 9)
      else (parseNumber cs).map (fun p => (.jnum (String.mk p.1), p.2))

def parseMembers : Nat → JFields → List Char → Option (JVal × List Char)
  | 0, _, _ => none
  | f + 1, acc, cs =>
    match cs with
    | c :: rest =>
      if c = '"' then
        match parseStringBody rest with
        | some (kchars, r1) =>
          match skipWs r1 with
          | c2 :: r2 =>
            if c2 = ':' then
              match parseValue f (skipWs r2) with
              | some (v, r3) =>
                let acc2 := insertField acc (String.mk kchars) v
                match skipWs r3 with
                | c3 :: r4 =>
                  if c3 = ',' then parseMembers f acc2 (skipWs r4)
                  else if c3 = '\x7d' then some (.jobj acc2, r4)
                  else none
                | [] => none
              | none => none
            else none
          | [] => none
        | none => none
      else none
    | [] => none

def parseElems : Nat → List Char → Option (JList × List Char)
  | 0, _ => none
  | f + 1, cs =>
    match parseValue f cs with
    | some (v, r1) =>
      match skipWs r1 with
      | c :: r2 =>
        if c = ',' then (parseElems f (skipWs r2)).map (fun p => (.cons v p.1, p.2))
        else if c = ']' then some (.cons v .nil, r2)
        else none
      | [] => none
    | none => none
end

def json_loads (s : String) : Option JVal :=
  let cs := skipWs s.data
  match parseValue (cs.length + 1) cs with
  | some (v, rest) => if (skipWs rest).isEmpty then some v else none
  | none => none

/- ---------------------------------------------------------------------
   Hidden metadata codec (main.py:29-41):
     create_hidden_metadata: f"<!-- readguard_meta: \x7bjson.dumps(data)\x7d -->"
     extract_metadata: re.search(r'<!-- readguard_meta: (.*?) -->', text)
   re.search finds the leftmost starting position from which the whole
   pattern can match; `(.*?)` is lazy and, without re.DOTALL, cannot cross
   a newline, so from a candidate position the capture runs to the first
   following " -->" unless a newline intervenes, in which case the search
   resumes from the next position.
   --------------------------------------------------------------------- -/

def markerChars : List Char := "<!-- readguard_meta: ".data

def termChars : List Char := " -->".data

def captureAfter : List Char → Option (List Char)
  | [] => none
  | c :: cs =>
    if leadsWith termChars (c :: cs) then some []
    else if c = '\n' then none
    else (captureAfter cs).map (fun cap => c :: cap)

def reSearchMeta : List Char → Option (List Char)
  | [] => none
  | c :: cs =>
    if leadsWith markerChars (c :: cs) then
      match captureAfter ((c :: cs).drop markerChars.length) with
      | some cap => some cap
      | none => reSearchMeta cs
    else reSearchMeta cs

/-- extract_metadata (main.py:34-41): find the marker, parse the capture
with json.loads, and turn a parse failure into None. -/
def extract_metadata (text : String) : Option JVal :=
  match reSearchMeta text.data with
  | some cap => json_loads (String.mk cap)
  | none => none

/-- create_hidden_metadata (main.py:29-32).  The Lean string is built from
the same character sequence the f-string concatenation produces. -/
def create_hidden_metadata (data : JVal) : String :=
  String.mk (markerChars ++ (json_dumps data).data ++ termChars)

/- ---------------------------------------------------------------------
   Observable effects of one invocation.
   --------------------------------------------------------------------- -/

inductive Outcome where
  | completed : Outcome
  | exit0 : Outcome
  | exit1 : Outcome
  | crashed : Outcome
deriving DecidableEq

structure CheckRun where
  name : String
  head_sha : String
  status : String
  conclusion : String
  title : String
  summary : String
deriving DecidableEq

structure RunResult where
  posted : List String
  checks : List CheckRun
  outcome : Outcome
deriving DecidableEq

def CHECK_NAME : String := "ReadGuard Verification"

/- ---------------------------------------------------------------------
   Verify mode (main.py:117-194).
   --------------------------------------------------------------------- -/

def modeIsQuiz (fs : JFields) : Bool :=
  match fieldsLookup fs "mode" with
  | some (.jstr s) => s == "quiz"
  | _ => false

/-- One step of the quiz-comment scan: `if meta and meta.get('mode') ==
'quiz'` skips a falsy or absent value (continuing with `k`, the scan of
the remaining history), selects a truthy object tagged quiz, skips a
truthy object tagged otherwise, and raises AttributeError (modelled as
`.error`) on a truthy non-object. -/
def quizCheck : Option JVal → Except Unit (Option JFields) → Except Unit (Option JFields)
  | none, k => k
  | some m, k =>
    if truthy m then
      match m with
      | .jobj fs => if modeIsQuiz fs then .ok (some fs) else k
      | _ => .error ()
    else k

/-- The quiz-comment scan of main.py:141-148, on a newest-first list. -/
def find_quiz_comment : List String → Except Unit (Option JFields)
  | [] => .ok none
  | body :: rest => quizCheck (extract_metadata body) (find_quiz_comment rest)

def successComment (ans : String) : String :=
  "✅ Correct! The answer was **" ++ ans ++ "**. verification successful."

def incorrectComment : String := "❌ Incorrect. Please try again."

/-- Python `computed == expected` where computed is a str and expected is
the decoded metadata['hash'] of arbitrary JSON type: equal only when the
latter is the same string. -/
def jvalEqStr (v : JVal) (s : String) : Bool :=
  match v with
  | .jstr t => t == s
  | _ => false

/-- run_verify_mode (main.py:117-194).  `history` is the comment list in
the order get_issue_comments returns it (oldest first); the code iterates
over `reversed(list(comments))`.  Missing 'hash' or 'salt' keys raise
KeyError (modelled as `.crashed`). -/
def run_verify_mode (H : String → String) (commentBody : String)
    (history : List String) (headSha : String) : RunResult :=
  match parse_answer commentBody with
  | none => ⟨[], [], .exit0⟩
  | some userAnswer =>
    match find_quiz_comment history.reverse with
    | .error _ => ⟨[], [], .crashed⟩
    | .ok none => ⟨[], [], .exit1⟩
    | .ok (some metadata) =>
      match fieldsLookup metadata "hash", fieldsLookup metadata "salt" with
      | some expectedHash, some saltV =>
        if jvalEqStr expectedHash (compute_hash H userAnswer (pyStr saltV)) then
          ⟨[successComment userAnswer],
           [⟨CHECK_NAME, headSha, "completed", "success", "ReadGuard Verified",
             "Developer successfully answered the proof-of-reading quiz."⟩],
           .completed⟩
        else
          ⟨[incorrectComment],
           [⟨CHECK_NAME, headSha, "completed", "failure", "ReadGuard Failed",
             "Incorrect answer provided."⟩],
           .completed⟩
      | _, _ => ⟨[], [], .crashed⟩

/- ---------------------------------------------------------------------
   Generate mode (main.py:45-115).
   --------------------------------------------------------------------- -/

structure PRFile where
  filename : String
  patch : Option String
deriving DecidableEq

/-- The diff concatenation of main.py:50-55; `if file.patch:` skips a
missing or empty patch. -/
def buildDiff : List PRFile → String
  | [] => ""
  | f :: fs =>
    (match f.patch with
     | some p => if p = "" then "" else "File: " ++ f.filename ++ "\n" ++ p ++ "\n\n"
     | none => "") ++ buildDiff fs

/-- The challenge metadata dict of main.py:78-82. -/
def challengeRecord (salt hash mode : String) : JVal :=
  .jobj (.fcons "salt" (.jstr salt) (.fcons "hash" (.jstr hash) (.fcons "mode" (.jstr mode) .fnil)))

def generateBody (question oa ob oc : String) (metadata : JVal) : String :=
  "\n## 🛡️ ReadGuard Verification\n    \n**Proof-of-Reading Required**\nThe following question has been generated based on the changes in this PR.\n\n**"
  ++ question ++ "**\n\n- **A)** " ++ oa ++ "\n- **B)** " ++ ob ++ "\n- **C)** " ++ oc
  ++ "\n\nReply with `/answer A`, `/answer B`, or `/answer C` to unlock the merge.\n\n"
  ++ create_hidden_metadata metadata ++ "\n"

/-- run_generate_mode (main.py:45-115).  `llm` is the question-generation
collaborator: generate_question returns the parsed JSON response, or None
when the provider call or its JSON decoding failed (llm_client.py:60-86).
`salt` stands for the secrets.token_hex(16) sample of this invocation.
A falsy response exits with status 1 before any side effect; a truthy
response that is not an object, or an object without the accessed keys or
with a non-string correct_answer, raises (modelled as `.crashed`). -/
def run_generate_mode (H : String → String) (files : List PRFile)
    (llm : String → Option JVal) (salt headSha : String) : RunResult :=
  let diff_text := buildDiff files
  if diff_text = "" then ⟨[], [], .completed⟩
  else
    match llm (diff_text.take 10000) with
    | none => ⟨[], [], .exit1⟩
    | some q =>
      if truthy q then
        match q with
        | .jobj fs =>
          match fieldsLookup fs "correct_answer" with
          | some (.jstr ca) =>
            let metadata := challengeRecord salt (compute_hash H ca salt) "quiz"
            match fieldsLookup fs "question", fieldsLookup fs "options" with
            | some qv, some (.jobj opts) =>
              match fieldsLookup opts "A", fieldsLookup opts "B", fieldsLookup opts "C" with
              | some oa, some ob, some oc =>
                ⟨[generateBody (pyStr qv) (pyStr oa) (pyStr ob) (pyStr oc) metadata],
                 [⟨CHECK_NAME, headSha, "completed", "action_required", "ReadGuard Quiz",
                   "Please answer the quiz in the PR comments to proceed."⟩],
                 .completed⟩
              | _, _, _ => ⟨[], [], .crashed⟩
            | _, _ => ⟨[], [], .crashed⟩
          | some _ => ⟨[], [], .crashed⟩
          | none => ⟨[], [], .crashed⟩
        | _ => ⟨[], [], .crashed⟩
      else ⟨[], [], .exit1⟩

/- ---------------------------------------------------------------------
   Auxiliary predicates used by the claims.
   --------------------------------------------------------------------- -/

/-- Decoded metadata that is not a well-formed quiz-tagged record: absent,
or anything other than an object whose mode field is the string "quiz". -/
def notQuizTaggedVal : Option JVal → Bool
  | some (.jobj fs) => !(modeIsQuiz fs)
  | _ => true

/-- A comment body that is not a well-formed quiz-tagged record. -/
def notQuizTagged (body : String) : Bool :=
  notQuizTaggedVal (extract_metadata body)

/-- Decoded metadata the scan of main.py:141-148 can process without
raising: absent, falsy, or an object. -/
def metaSafeVal : Option JVal → Bool
  | some (.jobj _) => true
  | some m => !(truthy m)
  | none => true

/-- A comment body whose metadata the scan can process without raising. -/
def metaSafe (body : String) : Bool :=
  metaSafeVal (extract_metadata body)

/-- One step of the Reply Matcher as §4.4 of the spec words it: only a
successfully decoded record (an object) tagged quiz is selected, anything
else is skipped. -/
def specCheck : Option JVal → Option JFields → Option JFields
  | some (.jobj fs), k => if modeIsQuiz fs then some fs else k
  | _, k => k

/-- The Reply Matcher as §4.4 of the spec words it, for comparison with
the code: scan newest-first and return the first successfully decoded
record whose mode is "quiz". -/
def findOpenChallenge_spec : List String → Option JFields
  | [] => none
  | body :: rest => specCheck (extract_metadata body) (findOpenChallenge_spec rest)

/-- The `if not q_data` test of main.py:70: the collaborator response is
absent (a provider exception) or falsy. -/
def notUsable : Option JVal → Bool
  | none => true
  | some v => !(truthy v)

/-- A printable ASCII character that json.dumps emits verbatim: in the
range 0x20..0x7e and neither the quote nor the backslash. -/
def plainChar (c : Char) : Bool :=
  (0x20 ≤ c.toNat && c.toNat ≤ 0x7e) && !(c == '"') && !(c == '\\')

def plainStr (s : String) : Bool := s.data.all plainChar

/-- A flat record with string fields, the shape of Challenge metadata. -/
def flatFields : List (String × String) → JFields
  | [] => .fnil
  | (k, v) :: rest => .fcons k (.jstr v) (flatFields rest)

def flatRecord (l : List (String × String)) : JVal := .jobj (flatFields l)

def appendFields : JFields → JFields → JFields
  | .fnil, g => g
  | .fcons k v rest, g => .fcons k v (appendFields rest g)

/-- The explicit character sequence `"k": "v", ...` followed by the
closing brace and `rest`: the normal form of `dumpFields (flatFields l)
++ '\x7d' :: rest` for plain keys and values, used to reason about the
member parser. -/
def flatText : List (String × String) → List Char → List Char
  | [], rest => rest
  | [(k, v)], rest =>
    '"' :: (k.data ++ '"' :: ':' :: ' ' :: '"' :: (v.data ++ '"' :: '\x7d' :: rest))
  | (k, v) :: tl, rest =>
    '"' :: (k.data ++ '"' :: ':' :: ' ' :: '"' :: (v.data ++ '"' :: ',' :: ' ' :: flatText tl rest))

/- =====================================================================
   Helper lemmas
   ===================================================================== -/

theorem leadsWith_append_self (l r : List Char) : leadsWith l (l ++ r) = true := by
  induction l with
  | nil => rfl
  | cons c cs ih => simp [leadsWith, ih]

theorem drop_len_append (l r : List Char) : (l ++ r).drop l.length = r := by
  induction l with
  | nil => rfl
  | cons c cs ih =>
    show (cs ++ r).drop cs.length = r
    exact ih

theorem leadsWith_append_of_le (p s r : List Char) (h : p.length ≤ s.length) :
    leadsWith p (s ++ r) = leadsWith p s := by
  induction p generalizing s with
  | nil => rfl
  | cons a ps ih =>
    cases s with
    | nil => simp at h
    | cons b bs =>
      show (a == b && leadsWith ps (bs ++ r)) = (a == b && leadsWith ps bs)
      rw [ih bs (by simp only [List.length_cons] at h; omega)]

theorem captureAfter_term (rest : List Char) :
    captureAfter (termChars ++ rest) = some [] := by
  show (if leadsWith termChars (termChars ++ rest) = true then some []
    else if ' ' = '\n' then none
    else Option.map (fun cap => ' ' :: cap) (captureAfter ("-->".data ++ rest))) = some []
  rw [leadsWith_append_self]
  rfl

theorem captureAfter_extend (p rest : List Char)
    (h : captureAfter (p ++ termChars) = some p) :
    captureAfter (p ++ termChars ++ rest) = some p := by
  induction p with
  | nil =>
    simpa using captureAfter_term rest
  | cons a ps ih =>
    have hlen : termChars.length ≤ (a :: (ps ++ termChars)).length := by
      have hl2 : (a :: (ps ++ termChars)).length = ps.length + termChars.length + 1 := by
        simp
      omega
    have hsh : a :: (ps ++ termChars ++ rest) = (a :: (ps ++ termChars)) ++ rest := by
      simp
    unfold captureAfter at h ⊢
    simp only [List.cons_append] at h ⊢
    rw [hsh, leadsWith_append_of_le _ _ rest hlen]
    by_cases hw : leadsWith termChars (a :: (ps ++ termChars)) = true
    · rw [if_pos hw] at h
      simp at h
    · rw [if_neg hw] at h ⊢
      by_cases ha : a = '\n'
      · rw [if_pos ha] at h
        simp at h
      · rw [if_neg ha] at h ⊢
        cases hc : captureAfter (ps ++ termChars) with
        | none =>
          rw [hc] at h
          simp at h
        | some q =>
          rw [hc] at h
          have h2 : a :: q = a :: ps := by
            simpa using h
          have hq : q = ps := by
            injection h2
          have hps : captureAfter (ps ++ termChars) = some ps := by
            rw [hc, hq]
          rw [ih hps]
          rfl

theorem reSearchMeta_start (x : List Char) (cap : List Char)
    (h : captureAfter x = some cap) :
    reSearchMeta (markerChars ++ x) = some cap := by
  show reSearchMeta ('<' :: ("!-- readguard_meta: ".data ++ x)) = some cap
  unfold reSearchMeta
  rw [show ('<' :: ("!-- readguard_meta: ".data ++ x)) = markerChars ++ x from rfl,
    leadsWith_append_self, drop_len_append]
  simp [h]

theorem afterWs_letter (l : List Char) (c : Char) (h : afterWs l = some c) :
    isAnswerLetter c = true := by
  induction l with
  | nil => simp [afterWs] at h
  | cons a as ih =>
    unfold afterWs at h
    by_cases hw : isPyWs a = true
    · exact ih (by rwa [if_pos hw] at h)
    · rw [if_neg hw] at h
      by_cases hl : isAnswerLetter a = true
      · rw [if_pos hl] at h
        cases h
        exact hl
      · rw [if_neg hl] at h
        cases h

theorem letter_not_ws (a : Char) (ha : isAnswerLetter a = true) : isPyWs a = false := by
  simp only [isAnswerLetter, Bool.or_eq_true, beq_iff_eq] at ha
  rcases ha with ((((h | h) | h) | h) | h) | h <;> subst h <;> decide

theorem afterWs_all_ws (w : List Char) (hw : ∀ x ∈ w, isPyWs x = true)
    (a : Char) (ha : isAnswerLetter a = true) (r : List Char) :
    afterWs (w ++ a :: r) = some a := by
  induction w with
  | nil => simp [afterWs, letter_not_ws a ha, ha]
  | cons c cs ih =>
    have hc := hw c (List.mem_cons_self c cs)
    simp only [List.cons_append, afterWs, hc, if_true]
    exact ih (fun x hx => hw x (List.mem_cons_of_mem c hx))

theorem dropWs_keep (y : List Char) (c : Char) (z : List Char) (hc : isPyWs c = false) :
    ∃ y2, dropWs (y ++ c :: z) = y2 ++ c :: z := by
  induction y with
  | nil => exact ⟨[], by simp [dropWs, hc]⟩
  | cons a as ih =>
    by_cases ha : isPyWs a = true
    · obtain ⟨y2, hy2⟩ := ih
      exact ⟨y2, by simp [dropWs, ha, hy2]⟩
    · exact ⟨a :: as, by simp [dropWs, ha]⟩

theorem pyStrip_keep (a : Char) (l : List Char) (c : Char) (r : List Char)
    (ha : isPyWs a = false) (hc : isPyWs c = false) :
    ∃ r2, pyStrip ((a :: l) ++ c :: r) = (a :: l) ++ c :: r2 := by
  unfold pyStrip
  rw [show dropWs ((a :: l) ++ c :: r) = (a :: l) ++ c :: r by simp [dropWs, ha]]
  have hrev : ((a :: l) ++ c :: r).reverse = r.reverse ++ c :: (a :: l).reverse := by
    simp
  rw [hrev]
  obtain ⟨y2, hy2⟩ := dropWs_keep r.reverse c (a :: l).reverse hc
  rw [hy2]
  exact ⟨y2.reverse, by simp⟩

theorem matchTail_letter (l : List Char) (c : Char)
    (h : matchTail l = some c) : isAnswerLetter c = true := by
  cases l with
  | nil => cases h
  | cons a rest =>
    have h2 : (if isPyWs a = true then afterWs rest else none) = some c := h
    by_cases hw : isPyWs a = true
    · rw [if_pos hw] at h2
      exact afterWs_letter rest c h2
    · rw [if_neg hw] at h2
      cases h2

theorem reMatchAnswer_letter (l : List Char) (c : Char)
    (h : reMatchAnswer l = some c) : isAnswerLetter c = true := by
  unfold reMatchAnswer at h
  by_cases hl : leadsWith "/answer".data l = true
  · rw [if_pos hl] at h
    exact matchTail_letter _ c h
  · rw [if_neg hl] at h
    cases h

theorem quizCheck_skip_or_crash (m : Option JVal)
    (k : Except Unit (Option JFields))
    (hm : notQuizTaggedVal m = true) :
    quizCheck m k = k ∨ quizCheck m k = .error () := by
  cases m with
  | none => exact Or.inl rfl
  | some v =>
    cases v with
    | jobj fs =>
      have hq : (!(modeIsQuiz fs)) = true := hm
      simp only [Bool.not_eq_true'] at hq
      left
      by_cases ht : truthy (.jobj fs) = true
      · show (if truthy (JVal.jobj fs) = true then
            (if modeIsQuiz fs = true then Except.ok (some fs) else k)
          else k) = k
        rw [if_pos ht, hq]
        rfl
      · show (if truthy (JVal.jobj fs) = true then
            (if modeIsQuiz fs = true then Except.ok (some fs) else k)
          else k) = k
        rw [if_neg ht]
    | jnull => exact Or.inl rfl
    | jbool x =>
      by_cases ht : truthy (.jbool x) = true
      · right
        show (if truthy (JVal.jbool x) = true then Except.error () else k) = _
        rw [if_pos ht]
      · left
        show (if truthy (JVal.jbool x) = true then Except.error () else k) = _
        rw [if_neg ht]
    | jnum x =>
      by_cases ht : truthy (.jnum x) = true
      · right
        show (if truthy (JVal.jnum x) = true then Except.error () else k) = _
        rw [if_pos ht]
      · left
        show (if truthy (JVal.jnum x) = true then Except.error () else k) = _
        rw [if_neg ht]
    | jstr x =>
      by_cases ht : truthy (.jstr x) = true
      · right
        show (if truthy (JVal.jstr x) = true then Except.error () else k) = _
        rw [if_pos ht]
      · left
        show (if truthy (JVal.jstr x) = true then Except.error () else k) = _
        rw [if_neg ht]
    | jarr x =>
      by_cases ht : truthy (.jarr x) = true
      · right
        show (if truthy (JVal.jarr x) = true then Except.error () else k) = _
        rw [if_pos ht]
      · left
        show (if truthy (JVal.jarr x) = true then Except.error () else k) = _
        rw [if_neg ht]

theorem find_quiz_none_or_crash (l : List String)
    (h : ∀ b ∈ l, notQuizTagged b = true) :
    find_quiz_comment l = .ok none ∨ find_quiz_comment l = .error () := by
  induction l with
  | nil => exact Or.inl rfl
  | cons b rest ih =>
    have hb := h b (List.mem_cons_self b rest)
    have hrest := ih (fun x hx => h x (List.mem_cons_of_mem b hx))
    unfold notQuizTagged at hb
    show find_quiz_comment (b :: rest) = _ ∨ find_quiz_comment (b :: rest) = _
    unfold find_quiz_comment
    rcases quizCheck_skip_or_crash (extract_metadata b) (find_quiz_comment rest) hb with
      hc | hc
    · rw [hc]
      exact hrest
    · exact Or.inr hc

theorem buildDiff_no_patch (files : List PRFile) (h : ∀ f ∈ files, f.patch = none) :
    buildDiff files = "" := by
  induction files with
  | nil => rfl
  | cons f fs ih =>
    have hf := h f (List.mem_cons_self f fs)
    have := ih (fun x hx => h x (List.mem_cons_of_mem f hx))
    simp [buildDiff, hf, this]

/- =====================================================================
   Claims
   ===================================================================== -/

theorem mk_cons_colon_ne (a b : Char) (S : String) (hab : a ≠ b) :
    String.mk (a :: ':' :: S.data) ≠ String.mk (b :: ':' :: S.data) := by
  intro h
  have h3 : a :: ':' :: S.data = b :: ':' :: S.data := congrArg String.data h
  injection h3 with h4 _
  exact hab h4

/-- Claim C1: for each label in \x7bA, B, C\x7d and each salt, verifying
that label against the commitment built from it succeeds, and verifying a
different label fails; verification recomputes the hash of the claimed
label with the stored salt and compares it with the stored hash (`verify`
is by definition that recompute-and-compare of main.py:154-162).  The
hash `H` abstracts sha256; the collision-freedom hypothesis `hcr` states
that `H` does not collide on the two pre-hash strings involved, the
property sha256 is relied upon for. -/
theorem commit_verify_sound (H : String → String) (S L M : String)
    (hL : L ∈ (["A", "B", "C"] : List String))
    (hM : M ∈ (["A", "B", "C"] : List String))
    (hne : M ≠ L)
    (hcr : H (hashInput L S) = H (hashInput M S) → hashInput L S = hashInput M S) :
    verify H L S (compute_hash H L S) = true ∧
    verify H M S (compute_hash H L S) = false := by
  constructor
  · simp [verify]
  · simp only [verify, compute_hash, beq_eq_false_iff_ne, ne_eq]
    intro h
    have h2 := hcr h.symm
    simp only [List.mem_cons, List.not_mem_nil, or_false] at hL hM
    rcases hL with rfl | rfl | rfl <;> rcases hM with rfl | rfl | rfl <;>
      first
        | exact hne rfl
        | exact mk_cons_colon_ne 'A' 'B' S (by decide) h2
        | exact mk_cons_colon_ne 'A' 'C' S (by decide) h2
        | exact mk_cons_colon_ne 'B' 'A' S (by decide) h2
        | exact mk_cons_colon_ne 'B' 'C' S (by decide) h2
        | exact mk_cons_colon_ne 'C' 'A' S (by decide) h2
        | exact mk_cons_colon_ne 'C' 'B' S (by decide) h2

/-- Witness for C1 at the identity hash, salt "salt0", labels A and B. -/
theorem commit_verify_sound_witness :
    verify id "A" "salt0" (compute_hash id "A" "salt0") = true ∧
    verify id "B" "salt0" (compute_hash id "A" "salt0") = false :=
  commit_verify_sound id "salt0" "A" "B" (by decide) (by decide) (by decide) (fun h => h)

/-- Claim C2 fails on the code (counterexample): in a newest-first history
whose newest element embeds the valid JSON number 5 (truthy, not a
record) before an older quiz record, the scan raises AttributeError on
`meta.get` instead of skipping to the quiz record the spec's matcher
selects. -/
theorem find_quiz_crash_counterexample :
    find_quiz_comment ["<!-- readguard_meta: 5 -->",
        create_hidden_metadata (challengeRecord "ab" "cd" "quiz")] = .error () ∧
    findOpenChallenge_spec ["<!-- readguard_meta: 5 -->",
        create_hidden_metadata (challengeRecord "ab" "cd" "quiz")] =
      some (.fcons "salt" (.jstr "ab") (.fcons "hash" (.jstr "cd")
        (.fcons "mode" (.jstr "quiz") .fnil))) :=
  ⟨rfl, rfl⟩

/-- Claim C2 (amended): provided no history element's metadata decodes to
a truthy non-record JSON value, the scan returns, without raising, exactly
what the spec's matcher selects: the metadata of the first (newest-first)
element decoding to a record tagged quiz, skipping elements with no
metadata, malformed metadata, falsy metadata, or a different mode. -/
theorem quizCheck_matches_spec (m : Option JVal)
    (kc : Except Unit (Option JFields)) (ks : Option JFields)
    (hk : kc = .ok ks) (hm : metaSafeVal m = true) :
    quizCheck m kc = .ok (specCheck m ks) := by
  cases m with
  | none => exact hk
  | some v =>
    cases v with
    | jobj fs =>
      cases fs with
      | fnil => simp [quizCheck, specCheck, truthy, modeIsQuiz, fieldsLookup, hk]
      | fcons k0 v0 fs2 =>
        by_cases hq : modeIsQuiz (.fcons k0 v0 fs2) = true
        · simp [quizCheck, specCheck, truthy, hq]
        · simp only [Bool.not_eq_true] at hq
          simp [quizCheck, specCheck, truthy, hq, hk]
    | jnull => simp [quizCheck, specCheck, truthy, hk]
    | jbool x =>
      have hb : (!(truthy (JVal.jbool x))) = true := hm
      simp only [Bool.not_eq_true'] at hb
      simp [quizCheck, specCheck, hb, hk]
    | jnum x =>
      have hb : (!(truthy (JVal.jnum x))) = true := hm
      simp only [Bool.not_eq_true'] at hb
      simp [quizCheck, specCheck, hb, hk]
    | jstr x =>
      have hb : (!(truthy (JVal.jstr x))) = true := hm
      simp only [Bool.not_eq_true'] at hb
      simp [quizCheck, specCheck, hb, hk]
    | jarr x =>
      have hb : (!(truthy (JVal.jarr x))) = true := hm
      simp only [Bool.not_eq_true'] at hb
      simp [quizCheck, specCheck, hb, hk]

theorem find_quiz_matches_spec (history : List String)
    (hsafe : ∀ b ∈ history, metaSafe b = true) :
    find_quiz_comment history = .ok (findOpenChallenge_spec history) := by
  induction history with
  | nil => rfl
  | cons b rest ih =>
    have hb := hsafe b (List.mem_cons_self b rest)
    have hrest := ih (fun x hx => hsafe x (List.mem_cons_of_mem b hx))
    unfold metaSafe at hb
    show find_quiz_comment (b :: rest) = _
    unfold find_quiz_comment findOpenChallenge_spec
    exact quizCheck_matches_spec (extract_metadata b) _ _ hrest hb

/-- Witness for the amended C2: a single quiz comment is selected. -/
theorem find_quiz_matches_spec_witness :
    find_quiz_comment [create_hidden_metadata (challengeRecord "ab" "cd" "quiz")] =
      .ok (some (.fcons "salt" (.jstr "ab") (.fcons "hash" (.jstr "cd")
        (.fcons "mode" (.jstr "quiz") .fnil)))) := by
  have h := find_quiz_matches_spec
    [create_hidden_metadata (challengeRecord "ab" "cd" "quiz")]
    (by intro b hb; simp only [List.mem_singleton] at hb; subst hb; rfl)
  exact h.trans rfl

/-- Claim C4: decode is total (the Lean model is a total function, as the
source catches JSONDecodeError): it returns none when the marker pattern
does not match, none when the captured content is not valid JSON, and
when the delimiters appear more than once it parses the first occurrence
(here: two adjacent embedded payloads, the first of which does not contain
an early closing delimiter). -/
theorem decode_total_behavior :
    (∀ t : String, reSearchMeta t.data = none → extract_metadata t = none) ∧
    (∀ (t : String) (cap : List Char), reSearchMeta t.data = some cap →
        json_loads (String.mk cap) = none → extract_metadata t = none) ∧
    (∀ (p1 p2 : List Char), captureAfter (p1 ++ termChars) = some p1 →
        extract_metadata (String.mk ((markerChars ++ p1 ++ termChars) ++
          (markerChars ++ p2 ++ termChars))) = json_loads (String.mk p1)) := by
  refine ⟨?_, ?_, ?_⟩
  · intro t h
    unfold extract_metadata
    rw [h]
  · intro t cap h1 h2
    unfold extract_metadata
    rw [h1]
    exact h2
  · intro p1 p2 hcap
    unfold extract_metadata
    have hassoc : (markerChars ++ p1 ++ termChars) ++ (markerChars ++ p2 ++ termChars) =
        markerChars ++ (p1 ++ termChars ++ (markerChars ++ p2 ++ termChars)) := by
      simp [List.append_assoc]
    rw [show (String.mk ((markerChars ++ p1 ++ termChars) ++
          (markerChars ++ p2 ++ termChars))).data =
        (markerChars ++ p1 ++ termChars) ++ (markerChars ++ p2 ++ termChars) from rfl,
      hassoc,
      reSearchMeta_start _ p1 (captureAfter_extend p1 _ hcap)]

/-- Witness for C4: no marker, malformed JSON inside the marker, and a
double marker parsed at its first occurrence. -/
theorem decode_total_behavior_witness :
    extract_metadata "plain text" = none ∧
    extract_metadata "<!-- readguard_meta: \x7boops -->" = none ∧
    extract_metadata (String.mk ((markerChars ++ "1".data ++ termChars) ++
      (markerChars ++ "2".data ++ termChars))) = json_loads (String.mk "1".data) :=
  ⟨decode_total_behavior.1 "plain text" rfl,
   decode_total_behavior.2.1 "<!-- readguard_meta: \x7boops -->" "\x7boops".data rfl rfl,
   decode_total_behavior.2.2 "1".data "2".data rfl⟩

/-- Claim C5: a recognized reply letter matching the open Challenge's
commitment yields a confirmation comment naming the accepted label and a
completed/success check run; a non-matching letter yields the rejection
comment and a completed/failure check run; and after the rejection
comment is appended to the history a later reply is matched against the
same still-latest Challenge record. -/
theorem verify_reply_outcomes (H : String → String) (body : String)
    (history : List String) (sha L : String) (fs : JFields) (h s : String)
    (hparse : parse_answer body = some L)
    (hfind : find_quiz_comment history.reverse = .ok (some fs))
    (hhash : fieldsLookup fs "hash" = some (.jstr h))
    (hsalt : fieldsLookup fs "salt" = some (.jstr s)) :
    (h = compute_hash H L s →
        run_verify_mode H body history sha =
          ⟨[successComment L],
           [⟨CHECK_NAME, sha, "completed", "success", "ReadGuard Verified",
             "Developer successfully answered the proof-of-reading quiz."⟩],
           .completed⟩) ∧
    (h ≠ compute_hash H L s →
        run_verify_mode H body history sha =
          ⟨[incorrectComment],
           [⟨CHECK_NAME, sha, "completed", "failure", "ReadGuard Failed",
             "Incorrect answer provided."⟩],
           .completed⟩) ∧
    find_quiz_comment ((history ++ [incorrectComment]).reverse) = .ok (some fs) := by
  refine ⟨?_, ?_, ?_⟩
  · intro he
    simp [run_verify_mode, hparse, hfind, hhash, hsalt, jvalEqStr, pyStr, he]
  · intro hne
    have hb : (h == compute_hash H L s) = false := beq_eq_false_iff_ne.mpr hne
    simp [run_verify_mode, hparse, hfind, hhash, hsalt, jvalEqStr, pyStr, hb]
  · rw [List.reverse_append]
    show find_quiz_comment (incorrectComment :: history.reverse) = _
    have hx : extract_metadata incorrectComment = none := rfl
    simp [find_quiz_comment, quizCheck, hx, hfind]

/-- Witness for C5 (success branch) at the identity hash. -/
theorem verify_reply_outcomes_witness :
    run_verify_mode id "/answer A"
      [create_hidden_metadata (challengeRecord "s1" "A:s1" "quiz")] "sha" =
      ⟨[successComment "A"],
       [⟨CHECK_NAME, "sha", "completed", "success", "ReadGuard Verified",
         "Developer successfully answered the proof-of-reading quiz."⟩],
       .completed⟩ :=
  (verify_reply_outcomes id "/answer A"
    [create_hidden_metadata (challengeRecord "s1" "A:s1" "quiz")] "sha" "A"
    (.fcons "salt" (.jstr "s1") (.fcons "hash" (.jstr "A:s1")
      (.fcons "mode" (.jstr "quiz") .fnil)))
    "A:s1" "s1" rfl rfl rfl rfl).1 rfl

/-- Claim C6: "/answer b", "/answer B" and "  /answer B  " all normalize
to the label B; a body that does not match the pattern produces a clean
exit 0 with no comment and no check run; and a recognized letter is
always one of A, B, C. -/
theorem reply_normalization (H : String → String) :
    parse_answer "/answer b" = some "B" ∧
    parse_answer "/answer B" = some "B" ∧
    parse_answer "  /answer B  " = some "B" ∧
    (∀ body history sha, parse_answer body = none →
        run_verify_mode H body history sha = ⟨[], [], .exit0⟩) ∧
    (∀ body L, parse_answer body = some L → L ∈ (["A", "B", "C"] : List String)) := by
  refine ⟨rfl, rfl, rfl, ?_, ?_⟩
  · intro body history sha h
    simp [run_verify_mode, h]
  · intro body L h
    unfold parse_answer at h
    cases hm : reMatchAnswer (pyStrip body.data) with
    | none => rw [hm] at h; cases h
    | some c =>
      rw [hm] at h
      have h2 : String.mk [c.toUpper] = L := by
        simpa using h
      subst h2
      have hc := reMatchAnswer_letter _ _ hm
      simp only [isAnswerLetter, Bool.or_eq_true, beq_iff_eq] at hc
      rcases hc with ((((h | h) | h) | h) | h) | h <;> subst h <;> decide

/-- Witness for C6: an unrelated body exits cleanly and a recognized
letter is in the label set. -/
theorem reply_normalization_witness :
    run_verify_mode id "looks good, thanks" [] "sha" = ⟨[], [], .exit0⟩ ∧
    "B" ∈ (["A", "B", "C"] : List String) :=
  ⟨(reply_normalization id).2.2.2.1 "looks good, thanks" [] "sha" rfl,
   (reply_normalization id).2.2.2.2 "/answer b" "B" rfl⟩

/-- Claim C7: a reply matching the answer pattern over a history with no
well-formed quiz-tagged record posts no comment, creates no check run,
and ends as an operator-visible error: exit status 1 when every
element's metadata is scannable, or an uncaught exception when some
truthy non-record metadata is encountered before any quiz record. -/
theorem no_open_challenge_error (H : String → String) (body : String)
    (history : List String) (sha L : String)
    (hparse : parse_answer body = some L)
    (hnone : ∀ b ∈ history, notQuizTagged b = true) :
    (run_verify_mode H body history sha).posted = [] ∧
    (run_verify_mode H body history sha).checks = [] ∧
    ((run_verify_mode H body history sha).outcome = .exit1 ∨
     (run_verify_mode H body history sha).outcome = .crashed) := by
  have hrev : ∀ b ∈ history.reverse, notQuizTagged b = true := by
    intro b hb
    exact hnone b (List.mem_reverse.mp hb)
  rcases find_quiz_none_or_crash history.reverse hrev with h | h <;>
    simp [run_verify_mode, hparse, h]

/-- Witness for C7: "/answer B" over a single unrelated comment. -/
theorem no_open_challenge_error_witness :
    (run_verify_mode id "/answer B" ["hello"] "sha").posted = [] ∧
    (run_verify_mode id "/answer B" ["hello"] "sha").checks = [] ∧
    ((run_verify_mode id "/answer B" ["hello"] "sha").outcome = .exit1 ∨
     (run_verify_mode id "/answer B" ["hello"] "sha").outcome = .crashed) :=
  no_open_challenge_error id "/answer B" ["hello"] "sha" "B" rfl
    (by intro b hb; simp only [List.mem_singleton] at hb; subst hb; rfl)

/-- Claim C8: when the diff is non-empty and the question-generation
collaborator returns no usable response (None, or a falsy decoded value),
generate mode exits with status 1 before any side effect: no comment, no
check run. -/
theorem generate_collaborator_failure (H : String → String) (files : List PRFile)
    (llm : String → Option JVal) (salt sha : String)
    (hdiff : buildDiff files ≠ "")
    (hfail : notUsable (llm ((buildDiff files).take 10000)) = true) :
    run_generate_mode H files llm salt sha = ⟨[], [], .exit1⟩ := by
  unfold run_generate_mode
  rw [if_neg hdiff]
  cases hq : llm ((buildDiff files).take 10000) with
  | none => rfl
  | some v =>
    have hv : truthy v = false := by
      rw [hq] at hfail
      simpa [notUsable] using hfail
    simp [hv]

/-- Witness for C8: one patched file, collaborator returning None. -/
theorem generate_collaborator_failure_witness :
    run_generate_mode id [⟨"a.py", some "p"⟩] (fun _ => none) "s" "sha" =
      ⟨[], [], .exit1⟩ :=
  generate_collaborator_failure id [⟨"a.py", some "p"⟩] (fun _ => none) "s" "sha"
    (by decide) rfl

/-- Claim C10: when no file of the change-set carries a patch, generate
mode returns successfully with no side effects; the collaborator `llm` is
universally quantified, so the result does not depend on it (it is never
consulted). -/
theorem generate_empty_diff_noop (H : String → String) (files : List PRFile)
    (llm : String → Option JVal) (salt sha : String)
    (h : ∀ f ∈ files, f.patch = none) :
    run_generate_mode H files llm salt sha = ⟨[], [], .completed⟩ := by
  unfold run_generate_mode
  rw [buildDiff_no_patch files h]
  rfl

/-- Witness for C10: one file without a patch. -/
theorem generate_empty_diff_noop_witness :
    run_generate_mode id [⟨"a.py", none⟩] (fun _ => none) "s" "sha" =
      ⟨[], [], .completed⟩ :=
  generate_empty_diff_noop id [⟨"a.py", none⟩] (fun _ => none) "s" "sha"
    (by intro f hf; simp only [List.mem_singleton] at hf; subst hf; rfl)

/-- Claim C9: the reply pattern is anchored at the start only: after the
literal `/answer` and whitespace, a letter of the class is accepted
regardless of trailing characters (so "/answer ABC" answers A), while a
body whose stripped text does not begin with `/answer` never matches. -/
theorem reply_anchoring :
    (∀ (w : List Char) (a : Char) (r : List Char),
        w ≠ [] → (∀ x ∈ w, isPyWs x = true) → isAnswerLetter a = true →
        parse_answer (String.mk ("/answer".data ++ w ++ a :: r)) =
          some (String.mk [a.toUpper])) ∧
    parse_answer "/answer ABC" = some "A" ∧
    (∀ body, leadsWith "/answer".data (pyStrip body.data) = false →
        parse_answer body = none) := by
  refine ⟨?_, rfl, ?_⟩
  · intro w a r hw hws ha
    obtain ⟨c0, w', rfl⟩ : ∃ c0 w', w = c0 :: w' := by
      cases w with
      | nil => exact absurd rfl hw
      | cons c0 w' => exact ⟨c0, w', rfl⟩
    unfold parse_answer
    have hshape : "/answer".data ++ (c0 :: w') ++ a :: r =
        ('/' :: ("answer".data ++ c0 :: w')) ++ a :: r := by
      simp
    have hla : isPyWs a = false := letter_not_ws a ha
    obtain ⟨r2, hstrip⟩ := pyStrip_keep '/' ("answer".data ++ c0 :: w') a r (by decide) hla
    rw [show (String.mk ("/answer".data ++ (c0 :: w') ++ a :: r)).data =
        "/answer".data ++ (c0 :: w') ++ a :: r from rfl, hshape, hstrip]
    have hback : ('/' :: ("answer".data ++ c0 :: w')) ++ a :: r2 =
        "/answer".data ++ (c0 :: (w' ++ a :: r2)) := by
      simp
    rw [hback]
    unfold reMatchAnswer
    rw [leadsWith_append_self, if_pos rfl]
    rw [show ("/answer".data ++ (c0 :: (w' ++ a :: r2))).drop 7 =
        c0 :: (w' ++ a :: r2) from drop_len_append "/answer".data _]
    have hmt : matchTail (c0 :: (w' ++ a :: r2)) = some a := by
      have h3 : (if isPyWs c0 = true then afterWs (w' ++ a :: r2) else none) =
          afterWs (w' ++ a :: r2) := if_pos (hws c0 (List.mem_cons_self c0 w'))
      exact h3.trans (afterWs_all_ws w' (fun x hx => hws x (List.mem_cons_of_mem c0 hx)) a ha r2)
    rw [hmt]
    rfl
  · intro body h
    unfold parse_answer reMatchAnswer
    rw [h]
    rfl

/-- Witness for C9: trailing characters after the letter are ignored, and
a body with leading text never matches. -/
theorem reply_anchoring_witness :
    parse_answer (String.mk ("/answer".data ++ [' '] ++ 'b' :: "xyz".data)) =
      some (String.mk ['b'.toUpper]) ∧
    parse_answer "say /answer A" = none :=
  ⟨reply_anchoring.1 [' '] 'b' "xyz".data (by decide) (by decide) (by decide),
   reply_anchoring.2.2 "say /answer A" rfl⟩

/- =====================================================================
   Round-trip of the hidden metadata codec (claim C3)
   ===================================================================== -/

theorem mk_data (s : String) : String.mk s.data = s := rfl

theorem plainChar_facts (c : Char) (hc : plainChar c = true) :
    0x20 ≤ c.toNat ∧ c.toNat ≤ 0x7e ∧ c ≠ '"' ∧ c ≠ '\\' := by
  simp only [plainChar, Bool.and_eq_true, Bool.not_eq_true', beq_eq_false_iff_ne, ne_eq,
    decide_eq_true_eq] at hc
  exact ⟨hc.1.1.1, hc.1.1.2, hc.1.2, hc.2⟩

theorem escapeChar_plain (c : Char) (hc : plainChar c = true) : escapeChar c = [c] := by
  obtain ⟨h1, h2, h3, h4⟩ := plainChar_facts c hc
  have hn : c ≠ '\n' := by intro e; subst e; exact absurd h1 (by decide)
  have ht : c ≠ '\t' := by intro e; subst e; exact absurd h1 (by decide)
  have hr : c ≠ '\r' := by intro e; subst e; exact absurd h1 (by decide)
  have hb : c ≠ '\x08' := by intro e; subst e; exact absurd h1 (by decide)
  have hf : c ≠ '\x0c' := by intro e; subst e; exact absurd h1 (by decide)
  unfold escapeChar
  rw [if_neg h3, if_neg h4, if_neg hn, if_neg ht, if_neg hr, if_neg hb, if_neg hf,
    if_pos ⟨h1, h2⟩]

theorem escChars_plain (l : List Char) (h : ∀ c ∈ l, plainChar c = true) :
    escChars l = l := by
  induction l with
  | nil => rfl
  | cons c cs ih =>
    rw [show escChars (c :: cs) = escapeChar c ++ escChars cs from rfl,
      escapeChar_plain c (h c (List.mem_cons_self c cs)),
      ih (fun x hx => h x (List.mem_cons_of_mem c hx))]
    rfl

theorem plainStr_mem (s : String) (h : plainStr s = true) :
    ∀ c ∈ s.data, plainChar c = true := by
  intro c hc
  simp only [plainStr, List.all_eq_true] at h
  exact h c hc

theorem strLex_step (c : Char) (cs : List Char) :
    strLex (c :: cs) =
      if c = '"' then some ([], cs)
      else if c = '\\' then
        (match cs with
         | [] => none
         | e :: cs2 =>
           if e = 'u' then
             match cs2 with
             | h1 :: h2 :: h3 :: h4 :: cs3 =>
               match hex4 h1 h2 h3 h4 with
               | some n => (strLex cs3).map (fun p => (n :: p.1, p.2))
               | none => none
             | _ => none
           else
             match escMap e with
             | some r => (strLex cs2).map (fun p => (r.toNat :: p.1, p.2))
             | none => none)
      else if c.toNat < 0x20 then none
      else (strLex cs).map (fun p => (c.toNat :: p.1, p.2)) := by
  rw [strLex.eq_def]

theorem strLex_plain (l : List Char) (hl : ∀ c ∈ l, plainChar c = true)
    (rest : List Char) :
    strLex (l ++ '"' :: rest) = some (l.map Char.toNat, rest) := by
  induction l with
  | nil =>
    show strLex ('"' :: rest) = _
    rw [strLex_step]
    simp
  | cons c cs ih =>
    obtain ⟨h1, h2, h3, h4⟩ := plainChar_facts c (hl c (List.mem_cons_self c cs))
    have hlt : ¬ c.toNat < 0x20 := by omega
    show strLex (c :: (cs ++ '"' :: rest)) = _
    rw [strLex_step, if_neg h3, if_neg h4, if_neg hlt,
      ih (fun x hx => hl x (List.mem_cons_of_mem c hx))]
    rfl

theorem combineSurrogates_below (u : List Nat) (hu : ∀ n ∈ u, n < 0xd800) :
    combineSurrogates u = u := by
  induction u with
  | nil => rfl
  | cons n rest ih =>
    cases rest with
    | nil => rfl
    | cons m t =>
      have hn : n < 0xd800 := hu n (List.mem_cons_self n (m :: t))
      have hnot : ¬ (0xd800 ≤ n ∧ n ≤ 0xdbff ∧ 0xdc00 ≤ m ∧ m ≤ 0xdfff) := by
        omega
      have hrec := ih (fun x hx => hu x (List.mem_cons_of_mem n hx))
      have hstep : combineSurrogates (n :: m :: t) =
          if 0xd800 ≤ n ∧ n ≤ 0xdbff ∧ 0xdc00 ≤ m ∧ m ≤ 0xdfff then
            (0x10000 + (n - 0xd800) * 0x400 + (m - 0xdc00)) :: combineSurrogates t
          else n :: combineSurrogates (m :: t) := by
        rw [combineSurrogates.eq_def]
      rw [hstep, if_neg hnot, hrec]

theorem parse_plain_string (l : List Char) (hl : ∀ c ∈ l, plainChar c = true)
    (rest : List Char) :
    parseStringBody (l ++ '"' :: rest) = some (l, rest) := by
  unfold parseStringBody
  rw [strLex_plain l hl rest]
  show some ((combineSurrogates (l.map Char.toNat)).map Char.ofNat, rest) = some (l, rest)
  have hbound : ∀ n ∈ l.map Char.toNat, n < 0xd800 := by
    intro n hn
    obtain ⟨c, hc, rfl⟩ := List.mem_map.mp hn
    have := (plainChar_facts c (hl c hc)).2.1
    omega
  have hback : (l.map Char.toNat).map Char.ofNat = l := by
    rw [List.map_map]
    trans l.map id
    · exact List.map_congr_left (fun c _ => Char.ofNat_toNat c)
    · exact List.map_id l
  rw [combineSurrogates_below _ hbound, hback]

theorem parseValue_step (f : Nat) (c : Char) (rest : List Char) :
    parseValue (f + 1) (c :: rest) =
      (if c = '"' then
        (parseStringBody rest).map (fun p => (.jstr (String.mk p.1), p.2))
      else if c = '\x7b' then
        match skipWs rest with
        | c2 :: r2 =>
          if c2 = '\x7d' then some (.jobj .fnil, r2)
          else parseMembers f .fnil (c2 :: r2)
        | [] => none
      else if c = '[' then
        match skipWs rest with
        | c2 :: r2 =>
          if c2 = ']' then some (.jarr .nil, r2)
          else (parseElems f (c2 :: r2)).map (fun p => (.jarr p.1, p.2))
        | [] => none
      else if leadsWith "true".data (c :: rest) = true then
        some (.jbool true, (c :: rest).drop 4)
      else if leadsWith "false".data (c :: rest) = true then
        some (.jbool false, (c :: rest).drop 5)
      else if leadsWith "null".data (c :: rest) = true then
        some (.jnull, (c :: rest).drop 4)
      else if leadsWith "NaN".data (c :: rest) = true then
        some (.jnum "NaN", (c :: rest).drop 3)
      else if leadsWith "Infinity".data (c :: rest) = true then
        some (.jnum "Infinity", (c :: rest).drop 8)
      else if leadsWith "-Infinity".data (c :: rest) = true then
        some (.jnum "-Infinity", (c :: rest).drop 9)
      else (parseNumber (c :: rest)).map (fun p => (.jnum (String.mk p.1), p.2)) :
        Option (JVal × List Char)) := by
  rw [parseValue.eq_def]

theorem parseMembers_step (f : Nat) (acc : JFields) (c : Char) (rest : List Char) :
    parseMembers (f + 1) acc (c :: rest) =
      (if c = '"' then
        match parseStringBody rest with
        | some (kchars, r1) =>
          (match skipWs r1 with
           | c2 :: r2 =>
             if c2 = ':' then
               match parseValue f (skipWs r2) with
               | some (v, r3) =>
                 (match skipWs r3 with
                  | c3 :: r4 =>
                    if c3 = ',' then
                      parseMembers f (insertField acc (String.mk kchars) v) (skipWs r4)
                    else if c3 = '\x7d' then
                      some (.jobj (insertField acc (String.mk kchars) v), r4)
                    else none
                  | [] => none)
               | none => none
             else none
           | [] => none)
        | none => none
      else none : Option (JVal × List Char)) := by
  rw [parseMembers.eq_def]

theorem parseValue_plain_string (f : Nat) (v : String) (hv : plainStr v = true)
    (rest : List Char) :
    parseValue (f + 1) ('"' :: (v.data ++ '"' :: rest)) = some (.jstr v, rest) := by
  have hp := parse_plain_string v.data (plainStr_mem v hv) rest
  rw [parseValue_step, if_pos rfl, hp]
  rfl

theorem fieldsLookup_insert : ∀ (acc : JFields) (k : String) (v : JVal) (k2 : String),
    fieldsLookup (insertField acc k v) k2 =
      if k == k2 then some v else fieldsLookup acc k2
  | .fnil, k, v, k2 => by
    simp only [insertField, fieldsLookup]
  | .fcons k0 v0 r, k, v, k2 => by
    by_cases h0 : (k0 == k) = true
    · have hk0 : k0 = k := eq_of_beq h0
      subst hk0
      simp only [insertField, h0, if_true, fieldsLookup]
      by_cases h2 : (k0 == k2) = true <;> simp [h2, fieldsLookup]
    · simp only [Bool.not_eq_true] at h0
      simp only [insertField, h0, Bool.false_eq_true, if_false, fieldsLookup]
      rw [fieldsLookup_insert r k v k2]
      by_cases h2 : (k0 == k2) = true <;> by_cases h3 : (k == k2) = true
      · have : k0 = k := (eq_of_beq h2).trans (eq_of_beq h3).symm
        rw [this] at h0
        simp at h0
      · simp [h2, h3]
      · simp [h2, h3]
      · simp [h2, h3]

theorem insertField_absent : ∀ (acc : JFields) (k : String) (v : JVal),
    fieldsLookup acc k = none →
    insertField acc k v = appendFields acc (.fcons k v .fnil)
  | .fnil, k, v, _ => rfl
  | .fcons k0 v0 r, k, v, h => by
    have h0 : (k0 == k) = false := by
      by_contra hc
      simp only [Bool.not_eq_false] at hc
      simp [fieldsLookup, hc] at h
    have hr : fieldsLookup r k = none := by
      have h2 : (if (k0 == k) = true then some v0 else fieldsLookup r k) = none := h
      rwa [h0] at h2
    simp only [insertField, h0, Bool.false_eq_true, if_false, appendFields]
    rw [insertField_absent r k v hr]

theorem appendFields_assoc : ∀ (a b c : JFields),
    appendFields (appendFields a b) c = appendFields a (appendFields b c)
  | .fnil, _, _ => rfl
  | .fcons k v r, b, c => by
    simp only [appendFields]
    rw [appendFields_assoc r b c]

theorem dumpFields_flatText (l : List (String × String)) :
    ∀ rest : List Char, l ≠ [] →
    (∀ kv ∈ l, plainStr kv.1 = true ∧ plainStr kv.2 = true) →
    dumpFields (flatFields l) ++ '\x7d' :: rest = flatText l rest := by
  induction l with
  | nil => intro rest h; exact absurd rfl h
  | cons kv tl ih =>
    intro rest _ hplain
    obtain ⟨k, v⟩ := kv
    have hk := escChars_plain k.data
      (plainStr_mem k (hplain (k, v) (List.mem_cons_self _ _)).1)
    have hv := escChars_plain v.data
      (plainStr_mem v (hplain (k, v) (List.mem_cons_self _ _)).2)
    cases tl with
    | nil =>
      show dumpFields (.fcons k (.jstr v) .fnil) ++ '\x7d' :: rest = _
      simp [dumpFields, dumpStringChars, dumpVal, hk, hv, flatText, List.append_assoc]
    | cons p2 tl2 =>
      have ihr := ih rest (by simp)
        (fun x hx => hplain x (List.mem_cons_of_mem (k, v) hx))
      show dumpFields (.fcons k (.jstr v) (flatFields (p2 :: tl2))) ++ '\x7d' :: rest = _
      cases hp2 : flatFields (p2 :: tl2) with
      | fnil =>
        obtain ⟨k2, v2⟩ := p2
        simp [flatFields] at hp2
      | fcons k2 v2 fr =>
        rw [show dumpFields (.fcons k (.jstr v) (.fcons k2 v2 fr)) =
          dumpStringChars k ++ ':' :: ' ' :: dumpVal (.jstr v) ++ ',' :: ' ' ::
            dumpFields (.fcons k2 v2 fr) from by rw [dumpFields.eq_def]]
        rw [← hp2]
        obtain ⟨k3, v3⟩ := p2
        rw [show flatText ((k, v) :: (k3, v3) :: tl2) rest =
          '"' :: (k.data ++ '"' :: ':' :: ' ' :: '"' :: (v.data ++ '"' :: ',' :: ' ' ::
            flatText ((k3, v3) :: tl2) rest)) from rfl]
        rw [← ihr]
        simp [dumpStringChars, dumpVal, hk, hv, List.append_assoc]

theorem flatText_length (l : List (String × String)) :
    ∀ rest : List Char, l ≠ [] → 2 * l.length ≤ (flatText l rest).length := by
  induction l with
  | nil => intro rest h; exact absurd rfl h
  | cons kv tl ih =>
    intro rest _
    obtain ⟨k, v⟩ := kv
    cases tl with
    | nil =>
      simp [flatText, List.length_append]
      omega
    | cons p2 tl2 =>
      have := ih rest (by simp)
      obtain ⟨k2, v2⟩ := p2
      show 2 * ((k, v) :: (k2, v2) :: tl2).length ≤
        (flatText ((k, v) :: (k2, v2) :: tl2) rest).length
      rw [show flatText ((k, v) :: (k2, v2) :: tl2) rest =
        '"' :: (k.data ++ '"' :: ':' :: ' ' :: '"' :: (v.data ++ '"' :: ',' :: ' ' ::
          flatText ((k2, v2) :: tl2) rest)) from rfl]
      simp only [List.length_cons, List.length_append] at this ⊢
      omega

theorem skipWs_flatText (l : List (String × String)) (rest : List Char) (h : l ≠ []) :
    skipWs (flatText l rest) = flatText l rest := by
  cases l with
  | nil => exact absurd rfl h
  | cons kv tl =>
    obtain ⟨k, v⟩ := kv
    cases tl with
    | nil => simp [flatText, skipWs, jsonWs]
    | cons p2 tl2 =>
      obtain ⟨k2, v2⟩ := p2
      simp [flatText, skipWs, jsonWs]

theorem flatText_head (l : List (String × String)) (rest : List Char) (h : l ≠ []) :
    ∃ t, flatText l rest = '"' :: t := by
  cases l with
  | nil => exact absurd rfl h
  | cons kv tl =>
    obtain ⟨k, v⟩ := kv
    cases tl with
    | nil => exact ⟨_, rfl⟩
    | cons p2 tl2 =>
      obtain ⟨k2, v2⟩ := p2
      exact ⟨_, rfl⟩

theorem parseMembers_flat (l : List (String × String)) :
    ∀ (f : Nat) (acc : JFields) (rest : List Char),
    l ≠ [] →
    (∀ kv ∈ l, plainStr kv.1 = true ∧ plainStr kv.2 = true) →
    (∀ kv ∈ l, fieldsLookup acc kv.1 = none) →
    l.Pairwise (fun a b => a.1 ≠ b.1) →
    parseMembers (2 * l.length + f) acc (flatText l rest) =
      some (.jobj (appendFields acc (flatFields l)), rest) := by
  induction l with
  | nil => intro f acc rest hne; exact absurd rfl hne
  | cons kv tl ih =>
    intro f acc rest _ hplain hfresh hnodup
    obtain ⟨k, v⟩ := kv
    have hkp := (hplain (k, v) (List.mem_cons_self _ _)).1
    have hvp := (hplain (k, v) (List.mem_cons_self _ _)).2
    have hins := insertField_absent acc k (.jstr v)
      (hfresh (k, v) (List.mem_cons_self _ _))
    cases tl with
    | nil =>
      have hfuel : 2 * (((k, v) :: ([] : List (String × String))).length) + f =
          (f + 1) + 1 := by
        simp only [List.length_cons, List.length_nil]
        omega
      rw [hfuel,
        show flatText [(k, v)] rest =
          '"' :: (k.data ++ '"' :: ':' :: ' ' :: '"' :: (v.data ++ '"' :: '\x7d' :: rest))
          from rfl]
      have hks := parse_plain_string k.data (plainStr_mem k hkp)
        (':' :: ' ' :: '"' :: (v.data ++ '"' :: '\x7d' :: rest))
      have hvs := parseValue_plain_string f v hvp ('\x7d' :: rest)
      simp [parseMembers_step, hks, hvs, skipWs, jsonWs, mk_data, hins, flatFields,
        appendFields]
    | cons p2 tl2 =>
      have hfuel : 2 * (((k, v) :: p2 :: tl2).length) + f =
          ((2 * (p2 :: tl2).length + f) + 1) + 1 := by
        simp only [List.length_cons]
        omega
      rw [hfuel,
        show flatText ((k, v) :: p2 :: tl2) rest =
          '"' :: (k.data ++ '"' :: ':' :: ' ' :: '"' :: (v.data ++ '"' :: ',' :: ' ' ::
            flatText (p2 :: tl2) rest)) from by
          obtain ⟨k2, v2⟩ := p2
          rfl]
      generalize hG : 2 * (p2 :: tl2).length + f = G
      have hks := parse_plain_string k.data (plainStr_mem k hkp)
        (':' :: ' ' :: '"' :: (v.data ++ '"' :: ',' :: ' ' :: flatText (p2 :: tl2) rest))
      have hvs := parseValue_plain_string G v hvp
        (',' :: ' ' :: flatText (p2 :: tl2) rest)
      have hsk := skipWs_flatText (p2 :: tl2) rest (by simp)
      have hfr : ∀ kv ∈ p2 :: tl2,
          fieldsLookup (insertField acc k (.jstr v)) kv.1 = none := by
        intro x hx
        rw [fieldsLookup_insert]
        have hkx : k ≠ x.1 := (List.pairwise_cons.mp hnodup).1 x hx
        have hbx : (k == x.1) = false := by
          simpa using hkx
        rw [hbx, if_neg (by simp [hbx])]
        exact hfresh x (List.mem_cons_of_mem _ hx)
      have hloop := ih (f + 1) (insertField acc k (.jstr v)) rest (by simp)
        (fun x hx => hplain x (List.mem_cons_of_mem _ hx)) hfr
        (List.pairwise_cons.mp hnodup).2
      rw [show 2 * (p2 :: tl2).length + (f + 1) = G + 1 from by omega] at hloop
      rw [hins] at hloop
      simp [parseMembers_step, hks, hvs, skipWs, jsonWs, mk_data, hsk, hloop, hins,
        flatFields, appendFields, appendFields_assoc]

theorem json_loads_flat (l : List (String × String))
    (hne : l ≠ [])
    (hplain : ∀ kv ∈ l, plainStr kv.1 = true ∧ plainStr kv.2 = true)
    (hnodup : l.Pairwise (fun a b => a.1 ≠ b.1)) :
    json_loads (json_dumps (flatRecord l)) = some (flatRecord l) := by
  have hshape : (json_dumps (flatRecord l)).data = '\x7b' :: flatText l [] := by
    show dumpVal (.jobj (flatFields l)) = _
    rw [show dumpVal (.jobj (flatFields l)) =
      ('\x7b' :: dumpFields (flatFields l)) ++ ['\x7d'] from by rw [dumpVal.eq_def],
      List.cons_append, dumpFields_flatText l [] hne hplain]
  have hsk0 : skipWs ('\x7b' :: flatText l []) = '\x7b' :: flatText l [] := by
    simp [skipWs, jsonWs]
  have hlen := flatText_length l [] hne
  have hstart : json_loads (json_dumps (flatRecord l)) =
      (match parseValue ((skipWs (json_dumps (flatRecord l)).data).length + 1)
          (skipWs (json_dumps (flatRecord l)).data) with
        | some (v, rest) => if (skipWs rest).isEmpty then some v else none
        | none => none) := rfl
  rw [hstart, hshape, hsk0]
  have hfuel : ('\x7b' :: flatText l []).length + 1 =
      (2 * l.length + ((flatText l []).length + 1 - 2 * l.length)) + 1 := by
    simp only [List.length_cons]
    omega
  rw [hfuel]
  obtain ⟨t, hct⟩ := flatText_head l [] hne
  have hpm := parseMembers_flat l ((flatText l []).length + 1 - 2 * l.length)
    .fnil [] hne hplain (by intro x hx; rfl) hnodup
  rw [hct] at hpm ⊢
  simp only [List.length_cons] at hpm
  simp [parseValue_step, skipWs, jsonWs, hpm, appendFields, flatRecord]

/-- Claim C3: decoding the text produced by encoding a flat record with
plain printable string fields and distinct keys (the shape of valid
Challenge metadata: hexadecimal salt and hash, mode "quiz") yields
exactly that record.  The hypothesis `hcap` states that the serialized
payload does not contain the closing delimiter " -->" early and contains
no newline, which holds for every valid Challenge record. -/
theorem metadata_roundtrip (l : List (String × String))
    (hne : l ≠ [])
    (hplain : ∀ kv ∈ l, plainStr kv.1 = true ∧ plainStr kv.2 = true)
    (hnodup : l.Pairwise (fun a b => a.1 ≠ b.1))
    (hcap : captureAfter ((json_dumps (flatRecord l)).data ++ termChars) =
      some (json_dumps (flatRecord l)).data) :
    extract_metadata (create_hidden_metadata (flatRecord l)) = some (flatRecord l) := by
  unfold extract_metadata create_hidden_metadata
  rw [show (String.mk (markerChars ++ (json_dumps (flatRecord l)).data ++ termChars)).data
      = markerChars ++ ((json_dumps (flatRecord l)).data ++ termChars) from by
    simp [List.append_assoc]]
  rw [reSearchMeta_start _ _ hcap]
  show json_loads (String.mk (json_dumps (flatRecord l)).data) = some (flatRecord l)
  rw [mk_data]
  exact json_loads_flat l hne hplain hnodup

/-- Witness for C3 at a concrete Challenge-shaped record. -/
theorem metadata_roundtrip_witness :
    extract_metadata (create_hidden_metadata
      (flatRecord [("salt", "ab12"), ("hash", "cd34"), ("mode", "quiz")])) =
      some (flatRecord [("salt", "ab12"), ("hash", "cd34"), ("mode", "quiz")]) :=
  metadata_roundtrip [("salt", "ab12"), ("hash", "cd34"), ("mode", "quiz")]
    (by decide) (by decide) (by decide) rfl

end ReadGuard

